import Mathlib

/-!
Verification model of the Auto-Inventory receipt pipeline.

The definitions below are a shallow embedding of the Python sources:
  backend/utils/text_normalization.py   (normalize_thai_text, THAI_WORD_VARIATIONS)
  backend/services/product_service.py   (find_matching_product, update_inventory)
  backend/services/receipt_pipeline.py  (run_receipt_pipeline, _mark_failed, _report)
  backend/services/transaction_service.py (create_transaction)
  backend/routers/receipts.py           (confirm_receipt)

Python strings are modelled as Lean `String` / `List Char`; floats are
modelled as `ℚ`; database rows as lists of structures; the SQLAlchemy
session as a pair of a current state and a committed state; exceptions as
`Except`.
-/

set_option maxHeartbeats 1000000

namespace AutoInventory

/-! ## Text normalization (`backend/utils/text_normalization.py`) -/

/-- Whitespace characters recognised by Python `str.split()` for the
ASCII range (space, tab, newline, carriage return, vertical tab, form feed). -/
def isWsChar (c : Char) : Bool :=
  c = ' ' || c = '\t' || c = '\n' || c = '\r' || c = '\x0b' || c = '\x0c'

/-- Accumulating splitter: `wordsAux l acc` is Python `l.split()` where `acc`
holds the (reversed) current word. Empty chunks are dropped, as `split()` does. -/
def wordsAux : List Char → List Char → List (List Char)
  | [], acc => if acc = [] then [] else [acc.reverse]
  | c :: cs, acc =>
    if isWsChar c then
      if acc = [] then wordsAux cs [] else acc.reverse :: wordsAux cs []
    else
      wordsAux cs (c :: acc)

/-- Python `text.split()`. -/
def pyWords (l : List Char) : List (List Char) :=
  wordsAux l []

/-- Python `" ".join(ws)`. -/
def joinWords : List (List Char) → List Char
  | [] => []
  | [w] => w
  | w :: w2 :: ws => w ++ ' ' :: joinWords (w2 :: ws)

/-- Python `" ".join(text.split())`: collapse whitespace runs and trim. -/
def collapseWs (l : List Char) : List Char :=
  joinWords (pyWords l)

/-- Python `str.lower()` restricted to ASCII letters (the only cased
characters appearing in this program's data; Thai has no case). -/
def pyLower (c : Char) : Char :=
  Char.toLower c

/-- The punctuation class removed by
`re.sub(r'[.,\-_/\\()[\]\x7b\x7d!?@#$%^&*+=|~\x60"\x27<>]', '', normalized)`. -/
def punctChars : List Char :=
  ".,-_/\\()[]\x7b\x7d!?@#$%^&*+=|~\x60\"\x27<>".toList

/-- Membership in the removed punctuation class. -/
def isPunct (c : Char) : Bool :=
  punctChars.contains c

/-- Characters fixed by lowering and outside the removed punctuation
class: the character-level invariant of fully normalized text. -/
def charOK (c : Char) : Bool :=
  pyLower c = c && !isPunct c

/-- `dropPrefixQ pat s` is `some rest` when `pat` is a prefix of `s` and
`rest` is what follows it, `none` otherwise. -/
def dropPrefixQ : List Char → List Char → Option (List Char)
  | [], s => some s
  | _ :: _, [] => none
  | p :: ps, c :: cs => if p = c then dropPrefixQ ps cs else none

/-- Python `pat in s` on character lists: `pat` occurs contiguously in `s`
(the empty pattern always occurs). -/
def listInfix (pat : List Char) : List Char → Bool
  | [] => pat.isEmpty
  | c :: cs => (dropPrefixQ pat (c :: cs)).isSome || listInfix pat cs

/-- Fueled worker for Python `str.replace`: scans left to right, replaces
each non-overlapping occurrence of `pat`, never rescans replaced text.
The fuel is an upper bound on the scanned length; `replaceAll` supplies
`s.length`, which suffices because every step consumes at least one
character of `s` when `pat` is nonempty (the table's patterns all are). -/
def replaceAllGo (pat rep : List Char) : Nat → List Char → List Char
  | _, [] => []
  | 0, s => s
  | fuel + 1, c :: cs =>
    match dropPrefixQ pat (c :: cs) with
    | some rest => rep ++ replaceAllGo pat rep fuel rest
    | none => c :: replaceAllGo pat rep fuel cs

/-- Python `s.replace(pat, rep)` for nonempty `pat`. -/
def replaceAll (pat rep s : List Char) : List Char :=
  replaceAllGo pat rep s.length s

/-- `THAI_WORD_VARIATIONS`, in dictionary insertion order. -/
def thaiWordVariations : List (String × String) :=
  [ ("สตรอว์เบอร์รี่", "สตอเบอรี่"),
    ("สตรอเบอร์รี่", "สตอเบอรี่"),
    ("สตอเบอร์รี่", "สตอเบอรี่"),
    ("สตรอเบอรี่", "สตอเบอรี่"),
    ("สตอว์เบอร์รี่", "สตอเบอรี่"),
    ("สตอเบอรี่", "สตอเบอรี่"),
    ("สตรอว์เบอรี่", "สตอเบอรี่"),
    ("สตรอเบอรี", "สตอเบอรี่"),
    ("สตอเบอร์รี", "สตอเบอรี่"),
    ("บลูเบอร์รี่", "บลูเบอรี่"),
    ("บลูเบอรี่", "บลูเบอรี่"),
    ("มะเขือเทศ", "มะเขือเทศ"),
    ("มะเขือ", "มะเขือเทศ"),
    ("ข้าวโพดหวาน", "ข้าวโพด"),
    ("ข้าวโพดอ่อน", "ข้าวโพด"),
    ("นมสด", "นม"),
    ("นมจืด", "นม"),
    ("นมพาสเจอร์ไรส์", "นม"),
    ("น้ำเปล่า", "น้ำดื่ม"),
    ("น้ำดื่ม", "น้ำดื่ม"),
    ("น้ำแร่", "น้ำดื่ม"),
    ("โค้ก", "โคก"),
    ("โค๊ก", "โคก"),
    ("โคก", "โคก"),
    ("เป๊ปซี่", "เปปซี่"),
    ("เป๊ปซี", "เปปซี่"),
    ("เปปซี", "เปปซี่") ]

/-- One step of the variation loop:
`normalized = normalized.replace(variation.lower(), standard.lower())`. -/
def substStep (s : List Char) (kv : String × String) : List Char :=
  replaceAll (kv.1.toList.map pyLower) (kv.2.toList.map pyLower) s

/-- The whole `for variation, standard in THAI_WORD_VARIATIONS.items()` loop. -/
def substAll (tbl : List (String × String)) (s : List Char) : List Char :=
  tbl.foldl substStep s

/-- `normalize_thai_text` from `backend/utils/text_normalization.py`:
collapse whitespace, ASCII-lowercase, strip punctuation, apply the
variation table in order, collapse whitespace again.  Empty input is
returned unchanged (`if not text: return ""`). -/
def normalize_thai_text (s : String) : String :=
  if s = "" then ""
  else
    let l1 := collapseWs s.toList
    let l2 := l1.map pyLower
    let l3 := l2.filter (fun c => !isPunct c)
    let l4 := substAll thaiWordVariations l3
    String.mk (collapseWs l4)

/-! ## Similarity matcher (`ProductService.find_matching_product`) -/

/-- A row of the `products` table. -/
structure Product where
  id : String
  name : String
  unit : String
  quantity : Int
  reorder_point : Int
  deriving DecidableEq, Repr

/-- `MatchedProduct` from `backend/schemas/receipt.py`. -/
structure MatchedProduct where
  product_id : String
  product_name : String
  unit : String
  similarity_score : ℚ
  deriving DecidableEq, Repr

/-- The single row returned by the pgvector nearest-neighbour query, with
`similarity = 1 - (embedding <=> :embedding)`. -/
structure VecRow where
  id : String
  name : String
  unit : String
  similarity : ℚ
  deriving DecidableEq, Repr

/-- External collaborators of `find_matching_product`: the embedding call
plus vector query (which can raise), and the catalog scan query of the
fallback (which can raise).  `ratio` abstracts
`difflib.SequenceMatcher(None, a, b).ratio()`. -/
structure MatchEnv where
  vector : Except Unit (Option VecRow)
  catalog : Except Unit (List Product)

/-- Python `a in b or b in a` on the two normalized strings. -/
def containsEither (a b : String) : Bool :=
  listInfix a.toList b.toList || listInfix b.toList a.toList

/-- Corroborating text similarity of the vector pass:
`0.95 if containment_boost else SequenceMatcher(...).ratio()`. -/
def vectorTextSim (ratio : String → String → ℚ) (ni nc : String) : ℚ :=
  if containsEither ni nc then Rat.divInt 95 100 else ratio ni nc

/-- Per-candidate score of the fuzzy fallback:
containment gives `0.95 if norm_item == norm_name else 0.85`,
otherwise the sequence ratio. -/
def fuzzyScore (ratio : String → String → ℚ) (ni : String) (p : Product) : ℚ :=
  let nn := normalize_thai_text p.name
  if containsEither ni nn then (if ni = nn then Rat.divInt 95 100 else Rat.divInt 85 100)
  else ratio ni nn

/-- Modelled from the spec: "for each candidate compute the same
containment-or-ratio score as above", i.e. the spec's fuzzy-fallback score
is `0.95` whenever one normalized string is a substring of the other and
the sequence ratio otherwise — with no equality distinction.  Declared only
to compare against the embedded `fuzzyScore`. -/
def fuzzyScorePerSpec (ratio : String → String → ℚ) (ni : String) (p : Product) : ℚ :=
  let nn := normalize_thai_text p.name
  if containsEither ni nn then Rat.divInt 95 100 else ratio ni nn

/-- The fallback's scan loop: starts from `best_product = None`,
`best_score = 0.0` and updates on strict improvement (`score > best_score`),
so the first candidate reaching the running maximum is kept. -/
def scanBest (ratio : String → String → ℚ) (ni : String) :
    List Product → Option Product × ℚ → Option Product × ℚ
  | [], acc => acc
  | p :: ps, (bp, bs) =>
    let sc := fuzzyScore ratio ni p
    if bs < sc then scanBest ratio ni ps (some p, sc)
    else scanBest ratio ni ps (bp, bs)

/-- The fuzzy fallback of `find_matching_product` (second `try` block):
a raising catalog query yields `None`; otherwise the best-scoring candidate
is returned when `best_product` is set and `best_score >= 0.7`. -/
def fuzzyPass (ratio : String → String → ℚ) (catalog : Except Unit (List Product))
    (item : String) : Option MatchedProduct :=
  match catalog with
  | .error _ => none
  | .ok cands =>
    let ni := normalize_thai_text item
    match scanBest ratio ni cands (none, 0) with
    | (some p, bs) =>
      if Rat.divInt 7 10 ≤ bs then some ⟨p.id, p.name, p.unit, bs⟩ else none
    | (none, _) => none

/-- The vector pass of `find_matching_product` (first `try` block): accepts
the nearest row only when `similarity > 0.7` and the corroborating text
similarity is `>= 0.6`; an exception or a rejection yields `none` here and
control falls through to the fuzzy fallback. -/
def vectorPass (ratio : String → String → ℚ) (vector : Except Unit (Option VecRow))
    (item : String) : Option MatchedProduct :=
  match vector with
  | .error _ => none
  | .ok none => none
  | .ok (some row) =>
    if Rat.divInt 7 10 < row.similarity then
      let ni := normalize_thai_text item
      let nc := normalize_thai_text row.name
      if Rat.divInt 6 10 ≤ vectorTextSim ratio ni nc then
        some ⟨row.id, row.name, row.unit, row.similarity⟩
      else none
    else none

/-- `ProductService.find_matching_product`: vector pass first, fuzzy
fallback when it yields nothing. -/
def find_matching_product (ratio : String → String → ℚ) (env : MatchEnv)
    (item : String) : Option MatchedProduct :=
  match vectorPass ratio env.vector item with
  | some m => some m
  | none => fuzzyPass ratio env.catalog item

/-! ## Receipt pipeline (`backend/services/receipt_pipeline.py`) -/

/-- `ReceiptStatus` from `backend/models/receipt.py`. -/
inductive ReceiptStatus where
  | processing
  | pending_confirmation
  | confirmed
  | failed
  deriving DecidableEq, Repr

/-- `ExtractedItem` from `backend/schemas/receipt.py`. -/
structure ExtractedItem where
  name : String
  quantity : String
  original_text : String
  deriving DecidableEq, Repr

/-- `ValidatedItem` from `backend/schemas/receipt.py`. -/
structure ValidatedItem where
  product_id : String
  product_name : String
  quantity : Int
  unit : String
  confidence : ℚ
  original_text : String
  deriving DecidableEq, Repr

/-- The `result_data` payload persisted into `receipt.extracted_data`. -/
structure ResultData where
  receipt_id : String
  items : List ValidatedItem
  total_items : Nat
  unmatched_items : List ExtractedItem
  image_url : Option String
  deriving DecidableEq, Repr

/-- A row of the `receipts` table. -/
structure Receipt where
  id : String
  image_url : String
  status : ReceiptStatus
  raw_text : Option String
  extracted_data : Option ResultData
  error_message : Option String
  deriving DecidableEq, Repr

/-- Progress events and stage-completion markers of one pipeline run.
`report` is a `(percent, stage_name, message)` triple delivered to the
progress sink; the markers record the instants at which the corresponding
stage finished, so that delivery order relative to the stages is visible. -/
inductive PEvent where
  | report (percent : Nat) (step : String) (message : String)
  | extractionReturned
  | matchingDone
  | validationDone
  deriving DecidableEq, Repr

/-- External collaborators of `run_receipt_pipeline`: the extraction
adapter (may raise), the matcher (total, see `find_matching_product`), the
per-item validation adapter (may raise, caught per item) and the public
image URL builder (`_build_public_image_url`, storage-layer). -/
structure PipelineEnv where
  extraction : Except String (List ExtractedItem × String)
  matcher : String → Option MatchedProduct
  validator : MatchedProduct → String → String → Except Unit ValidatedItem
  publicUrl : String → Option String

/-- Result of one modelled pipeline run: the receipt row after the final
commit, the full event trace, and the returned/raised value. -/
structure RunResult where
  receipt : Receipt
  events : List PEvent
  outcome : Except String ResultData
  deriving Repr

/-- The marker `_mark_failed` looks for before appending the raw OCR text. -/
def ocrMarker : String :=
  "ข้อมูลที่ OCR ได้:"

/-- Python `sub in s` on strings. -/
def strContains (s sub : String) : Bool :=
  listInfix sub.toList s.toList

/-- `_mark_failed`: set status `FAILED` and store the error message,
appending the raw OCR text when it is truthy and not already embedded. -/
def markFailed (r : Receipt) (raw : Option String) (error : String) : Receipt :=
  let message := if error = "" then "Unknown error" else error
  let message :=
    match raw with
    | some t =>
      if t ≠ "" && !strContains message ocrMarker then
        message ++ "\n\nข้อมูลที่ OCR ได้: " ++ t
      else message
    | none => message
  { r with status := .failed, error_message := some message }

/-- Progress message of the 33% checkpoint. -/
def extractionMsg : String := "กำลังอ่านข้อมูลจากใบเสร็จด้วย AI..."

/-- Progress message of the 66% checkpoint. -/
def matchingMsg : String := "กำลังจับคู่สินค้ากับคลัง..."

/-- Progress message of the 100% checkpoint. -/
def validationMsg : String := "กำลังยืนยันและแปลงหน่วย..."

/-- The matching loop of the pipeline: pairs every extracted item that the
matcher resolves with its `MatchedProduct`, in input order. -/
def pipelineMatched (env : PipelineEnv) (items : List ExtractedItem) :
    List (ExtractedItem × MatchedProduct) :=
  items.filterMap fun it => (env.matcher it.name).map (fun m => (it, m))

/-- The unmatched remainder of the matching loop, in input order. -/
def pipelineUnmatched (env : PipelineEnv) (items : List ExtractedItem) :
    List ExtractedItem :=
  items.filter fun it => (env.matcher it.name).isNone

/-- The validation loop of the pipeline: collects per-item validator
successes and silently skips per-item failures. -/
def pipelineValidated (env : PipelineEnv)
    (matched : List (ExtractedItem × MatchedProduct)) : List ValidatedItem :=
  matched.filterMap fun pm => (env.validator pm.2 pm.1.original_text pm.1.quantity).toOption

/-- `run_receipt_pipeline` for a receipt that exists, with a progress sink
attached.  The trace interleaves the delivered progress reports with the
stage-completion markers, exactly in source order: each `_report` call
precedes the stage it names. -/
def run_receipt_pipeline (env : PipelineEnv) (r : Receipt) : RunResult :=
  let r1 : Receipt := { r with status := .processing }
  let ev1 : List PEvent := [.report 33 "vision_extraction" extractionMsg]
  match env.extraction with
  | .error e => ⟨markFailed r1 none e, ev1, .error e⟩
  | .ok (items, raw) =>
    let r2 : Receipt := { r1 with raw_text := some raw }
    let ev2 := ev1 ++ [.extractionReturned]
    if items = [] then
      let msg := "No items extracted from receipt\n\nข้อมูลที่ OCR ได้: " ++
        (if raw = "" then "N/A" else raw)
      ⟨markFailed r2 (some raw) msg, ev2, .error msg⟩
    else
      let ev3 := ev2 ++ [.report 66 "matching" matchingMsg]
      let matched := pipelineMatched env items
      let unmatched := pipelineUnmatched env items
      let ev4 := ev3 ++ [.matchingDone]
      if matched = [] then
        let msg := "No products could be matched from the receipt" ++
          (if raw ≠ "" then "\n\nข้อมูลที่ OCR ได้: " ++ raw else "")
        ⟨markFailed r2 (some raw) msg, ev4, .error msg⟩
      else
        let ev5 := ev4 ++ [.report 100 "validation" validationMsg]
        let validated := pipelineValidated env matched
        let ev6 := ev5 ++ [.validationDone]
        if validated = [] then
          let msg := "No items could be validated" ++
            (if raw ≠ "" then "\n\nข้อมูลที่ OCR ได้: " ++ raw else "")
          ⟨markFailed r2 (some raw) msg, ev6, .error msg⟩
        else
          let data : ResultData :=
            ⟨r.id, validated, validated.length, unmatched, env.publicUrl r.image_url⟩
          ⟨{ r2 with status := .pending_confirmation,
                     extracted_data := some data,
                     error_message := none }, ev6, .ok data⟩

/-- The percents of the report events of a trace, in delivery order. -/
def reportPercents (evs : List PEvent) : List Nat :=
  evs.filterMap fun e =>
    match e with
    | .report p _ _ => some p
    | _ => none

/-- Index of the first report event with the given percent. -/
def percentIdx (evs : List PEvent) (p : Nat) : Option Nat :=
  evs.findIdx? fun e =>
    match e with
    | .report q _ _ => q = p
    | _ => false

/-- Index of the first occurrence of a given event. -/
def eventIdx (evs : List PEvent) (m : PEvent) : Option Nat :=
  evs.findIdx? fun e => e = m

/-- Modelled from the spec: "an optional progress sink receiving
`(percent, stage_name, message)` events at fixed checkpoints: 33% after
extraction, 66% after matching, 100% after validation", read together with
the claim's "exactly three events, in order 33 then 66 then 100, where the
33% event is delivered after extraction completes, the 66% event after
matching completes, and the 100% event after validation completes".
This is the specified behaviour, to be compared with the embedded code. -/
def progressPerSpec (evs : List PEvent) : Bool :=
  reportPercents evs = [33, 66, 100] &&
  match percentIdx evs 33, eventIdx evs .extractionReturned,
        percentIdx evs 66, eventIdx evs .matchingDone,
        percentIdx evs 100, eventIdx evs .validationDone with
  | some i33, some iEx, some i66, some iMa, some i100, some iVa =>
    decide (iEx < i33) && decide (iMa < i66) && decide (iVa < i100)
  | _, _, _, _, _, _ => false

/-! ## Reconciliation (`update_inventory`, `create_transaction`,
`confirm_receipt`) -/

/-- A row of the `transactions` table (ids modelled as a counter). -/
structure TransactionRow where
  id : Nat
  receipt_id : String
  total_items : Nat
  deriving DecidableEq, Repr

/-- A row of the `transaction_items` table. -/
structure TransactionItemRow where
  transaction_id : Nat
  product_id : String
  product_name : String
  quantity : Int
  unit : String
  original_text : String
  deriving DecidableEq, Repr

/-- The relational state touched by reconciliation. -/
structure DBState where
  products : List Product
  receipts : List Receipt
  transactions : List TransactionRow
  transaction_items : List TransactionItemRow
  nextTransactionId : Nat
  deriving DecidableEq, Repr

/-- A SQLAlchemy session: the in-session (flushed but uncommitted) view and
the last committed database state.  `flush` keeps changes in `state`;
`commit` promotes them; `rollback` discards them. -/
structure Session where
  state : DBState
  committed : DBState
  deriving DecidableEq, Repr

/-- `await db.commit()`. -/
def commitS (s : Session) : Session := ⟨s.state, s.state⟩

/-- `await db.rollback()`. -/
def rollbackS (s : Session) : Session := ⟨s.committed, s.committed⟩

/-- One entry of the `low_stock_products` list built by `update_inventory`,
with the quantity at the moment the entry was appended. -/
structure LowStockEntry where
  product_id : String
  product_name : String
  quantity : Int
  reorder_point : Int
  unit : String
  deriving DecidableEq, Repr

/-- `product.quantity = product.quantity + item.quantity` on the first
product with the given id (ids are primary keys, so at most one row
matches). -/
def bumpFirst : List Product → String → Int → List Product
  | [], _, _ => []
  | p :: ps, pid, q =>
    if p.id = pid then { p with quantity := p.quantity + q } :: ps
    else p :: bumpFirst ps pid q

/-- The item loop of `ProductService.update_inventory`: look the product
up, add the item quantity, and append a low-stock entry when the product's
new quantity is below its reorder point; a missing product raises
`ValueError` immediately. -/
def updateInventoryGo : List Product → List ValidatedItem → List LowStockEntry →
    Except String (List Product × List LowStockEntry)
  | ps, [], low => .ok (ps, low)
  | ps, it :: its, low =>
    match ps.find? (fun p => p.id = it.product_id) with
    | none => .error ("Product with id " ++ it.product_id ++ " not found")
    | some p =>
      let newq := p.quantity + it.quantity
      updateInventoryGo (bumpFirst ps it.product_id it.quantity) its
        (if newq < p.reorder_point then
          low ++ [⟨p.id, p.name, newq, p.reorder_point, p.unit⟩]
        else low)

/-- `ProductService.update_inventory`: empty input returns `[]` at once;
otherwise the item loop runs and the accumulated low-stock list is
returned (the raising path re-raises unchanged). -/
def update_inventory (ps : List Product) (items : List ValidatedItem) :
    Except String (List Product × List LowStockEntry) :=
  if items = [] then .ok (ps, [])
  else updateInventoryGo ps items []

/-- `create_transaction` from `backend/services/transaction_service.py`:
rejects an empty item list and a missing receipt, then inserts one
`Transaction` row with `total_items = len(items)` and one
`TransactionItem` row per item. -/
def create_transaction (receipt_id : String) (items : List ValidatedItem)
    (db : DBState) : Except String (DBState × TransactionRow) :=
  if items = [] then .error "Items list cannot be empty"
  else if (db.receipts.find? (fun r => r.id = receipt_id)).isNone then
    .error ("Receipt with id " ++ receipt_id ++ " not found")
  else
    let tx : TransactionRow := ⟨db.nextTransactionId, receipt_id, items.length⟩
    let rows := items.map fun it =>
      TransactionItemRow.mk tx.id it.product_id it.product_name it.quantity
        it.unit it.original_text
    .ok ({ db with
            transactions := db.transactions ++ [tx],
            transaction_items := db.transaction_items ++ rows,
            nextTransactionId := db.nextTransactionId + 1 }, tx)

/-- `ConfirmReceiptItem` from `backend/routers/receipts.py` (note: it has
no confidence field). -/
structure ConfirmReceiptItem where
  product_id : String
  product_name : String
  quantity : Int
  unit : String
  original_text : String
  deriving DecidableEq, Repr

/-- The list-comprehension in `confirm_receipt` that turns request items
into `ValidatedItem`s with `confidence=1.0` ("User confirmed, so
confidence is 100%"). -/
def confirmValidatedItems (items : List ConfirmReceiptItem) : List ValidatedItem :=
  items.map fun it =>
    ⟨it.product_id, it.product_name, it.quantity, it.unit, 1, it.original_text⟩

/-- Body of `ConfirmReceiptResponse`. -/
structure ConfirmResponse where
  transaction_id : Nat
  total_items : Nat
  deriving DecidableEq, Repr

/-- The error responses `confirm_receipt` can produce. -/
inductive ConfirmError where
  | notFound
  | invalidStatus
  | badRequest (msg : String)
  deriving DecidableEq, Repr

/-- `receipt.status = ReceiptStatus.CONFIRMED` on the first receipt row
with the given id. -/
def setStatusFirst : List Receipt → String → ReceiptStatus → List Receipt
  | [], _, _ => []
  | r :: rs, rid, st =>
    if r.id = rid then { r with status := st } :: rs
    else r :: setStatusFirst rs rid st

/-- `confirm_receipt` from `backend/routers/receipts.py`: load the receipt
(404 when missing, 400 when not `PENDING_CONFIRMATION`), build the
confidence-1.0 `ValidatedItem`s, apply `update_inventory` (a `ValueError`
rolls the session back and returns 400), then `create_transaction` (which
commits), then set the receipt `CONFIRMED` and commit again. -/
def confirm_receipt (s : Session) (receipt_id : String)
    (items : List ConfirmReceiptItem) : Session × Except ConfirmError ConfirmResponse :=
  match s.state.receipts.find? (fun r => r.id = receipt_id) with
  | none => (s, .error .notFound)
  | some receipt =>
    if receipt.status ≠ .pending_confirmation then (s, .error .invalidStatus)
    else
      let validated := confirmValidatedItems items
      match update_inventory s.state.products validated with
      | .error e => (rollbackS s, .error (.badRequest e))
      | .ok (ps2, _low) =>
        let s2 : Session := ⟨{ s.state with products := ps2 }, s.committed⟩
        match create_transaction receipt_id validated s2.state with
        | .error e => (rollbackS s2, .error (.badRequest e))
        | .ok (db3, tx) =>
          let s3 := commitS ⟨db3, s2.committed⟩
          let s4 := commitS ⟨{ s3.state with
            receipts := setStatusFirst s3.state.receipts receipt_id .confirmed },
            s3.committed⟩
          (s4, .ok ⟨tx.id, tx.total_items⟩)

/-! ## Helper lemmas -/

theorem char_toNat_ofNat_of_lt {n : Nat} (h : n < 55296) : (Char.ofNat n).toNat = n := by
  have hv : n.isValidChar := Or.inl h
  rw [Char.ofNat, dif_pos hv]
  simp [Char.ofNatAux, Char.toNat, UInt32.toNat]

theorem pyLower_idem (c : Char) : pyLower (pyLower c) = pyLower c := by
  unfold pyLower Char.toLower
  by_cases h : c.toNat ≥ 65 ∧ c.toNat ≤ 90
  · rw [if_pos h]
    have h32 : (Char.ofNat (c.toNat + 32)).toNat = c.toNat + 32 :=
      char_toNat_ofNat_of_lt (by omega)
    rw [if_neg]
    rw [h32]
    omega
  · rw [if_neg h, if_neg h]

theorem wordsAux_append_word (w : List Char) :
    ∀ (l acc : List Char), (∀ c ∈ w, isWsChar c = false) →
    wordsAux (w ++ l) acc = wordsAux l (w.reverse ++ acc) := by
  induction w with
  | nil => intro l acc _; simp
  | cons c w' ih =>
    intro l acc hw
    have hc : isWsChar c = false := hw c (by simp)
    simp only [List.cons_append, wordsAux, hc]
    rw [if_neg (by simp [hc])]
    rw [show (w'.append l) = w' ++ l from rfl]
    rw [ih l (c :: acc) (fun d hd => hw d (by simp [hd]))]
    simp

theorem wordsAux_sound (l : List Char) :
    ∀ (acc : List Char), (∀ c ∈ acc, isWsChar c = false) →
    ∀ w ∈ wordsAux l acc, w ≠ [] ∧ ∀ c ∈ w, isWsChar c = false := by
  induction l with
  | nil =>
    intro acc hacc w hw
    by_cases h : acc = []
    · simp [wordsAux, h] at hw
    · simp [wordsAux, h] at hw
      subst hw
      constructor
      · simp [h]
      · intro c hc; exact hacc c (List.mem_reverse.mp hc)
  | cons c cs ih =>
    intro acc hacc w hw
    by_cases hc : isWsChar c = true
    · by_cases h : acc = []
      · simp [wordsAux, hc, h] at hw
        exact ih [] (by simp) w hw
      · simp [wordsAux, hc, h] at hw
        rcases hw with hw | hw
        · subst hw
          exact ⟨by simp [h], fun d hd => hacc d (List.mem_reverse.mp hd)⟩
        · exact ih [] (by simp) w hw
    · simp at hc
      simp [wordsAux, hc] at hw
      exact ih (c :: acc) (by
        intro d hd
        rcases List.mem_cons.mp hd with h | h
        · subst h; exact hc
        · exact hacc d h) w hw

theorem pyWords_joinWords :
    ∀ ws : List (List Char),
    (∀ w ∈ ws, w ≠ [] ∧ ∀ c ∈ w, isWsChar c = false) →
    pyWords (joinWords ws) = ws := by
  intro ws
  induction ws with
  | nil => intro _; rfl
  | cons w ws' ih =>
    intro h
    obtain ⟨hw, hwc⟩ := h w (by simp)
    cases ws' with
    | nil =>
      show pyWords w = [w]
      unfold pyWords
      have key := wordsAux_append_word w [] [] hwc
      simp only [List.append_nil] at key
      rw [key]
      simp [wordsAux, hw]
    | cons w2 ws'' =>
      show pyWords (w ++ ' ' :: joinWords (w2 :: ws'')) = w :: w2 :: ws''
      unfold pyWords
      rw [wordsAux_append_word w _ [] hwc]
      simp only [wordsAux]
      rw [if_pos (show isWsChar ' ' = true by rfl)]
      rw [if_neg (by simp [hw])]
      rw [List.reverse_append, List.reverse_reverse]
      have ih2 := ih (fun u hu => h u (by simp [hu]))
      unfold pyWords at ih2
      simp [ih2]

theorem collapseWs_idem (l : List Char) : collapseWs (collapseWs l) = collapseWs l := by
  unfold collapseWs
  rw [pyWords_joinWords (pyWords l) (wordsAux_sound l [] (by simp))]

theorem wordsAux_chars (l : List Char) :
    ∀ (acc w : List Char), w ∈ wordsAux l acc → ∀ c ∈ w, c ∈ l ∨ c ∈ acc := by
  induction l with
  | nil =>
    intro acc w hw c hc
    by_cases h : acc = [] <;> simp [wordsAux, h] at hw
    subst hw
    exact Or.inr (List.mem_reverse.mp hc)
  | cons a cs ih =>
    intro acc w hw c hc
    by_cases ha : isWsChar a = true
    · by_cases h : acc = []
      · simp [wordsAux, ha, h] at hw
        rcases ih [] w hw c hc with h1 | h1
        · exact Or.inl (by simp [h1])
        · simp at h1
      · simp [wordsAux, ha, h] at hw
        rcases hw with hw | hw
        · subst hw; exact Or.inr (List.mem_reverse.mp hc)
        · rcases ih [] w hw c hc with h1 | h1
          · exact Or.inl (by simp [h1])
          · simp at h1
    · simp at ha
      simp [wordsAux, ha] at hw
      rcases ih (a :: acc) w hw c hc with h1 | h1
      · exact Or.inl (by simp [h1])
      · rcases List.mem_cons.mp h1 with h2 | h2
        · exact Or.inl (by simp [h2])
        · exact Or.inr h2

theorem joinWords_chars :
    ∀ (ws : List (List Char)) (c : Char), c ∈ joinWords ws → (∃ w ∈ ws, c ∈ w) ∨ c = ' ' := by
  intro ws
  induction ws with
  | nil => intro c hc; simp [joinWords] at hc
  | cons w ws' ih =>
    intro c hc
    cases ws' with
    | nil => exact Or.inl ⟨w, by simp, hc⟩
    | cons w2 ws'' =>
      simp only [joinWords] at hc
      rcases List.mem_append.mp hc with h | h
      · exact Or.inl ⟨w, by simp, h⟩
      · rcases List.mem_cons.mp h with h2 | h2
        · exact Or.inr h2
        · rcases ih c h2 with ⟨u, hu, hcu⟩ | h3
          · exact Or.inl ⟨u, by simp [hu], hcu⟩
          · exact Or.inr h3

theorem collapseWs_chars (l : List Char) (c : Char) (hc : c ∈ collapseWs l) :
    c ∈ l ∨ c = ' ' := by
  unfold collapseWs at hc
  rcases joinWords_chars (pyWords l) c hc with ⟨w, hw, hcw⟩ | h
  · rcases wordsAux_chars l [] w hw c hcw with h1 | h1
    · exact Or.inl h1
    · simp at h1
  · exact Or.inr h

theorem dropPrefixQ_chars :
    ∀ (pat s rest : List Char), dropPrefixQ pat s = some rest → ∀ c ∈ rest, c ∈ s := by
  intro pat
  induction pat with
  | nil => intro s rest h c hc; simp [dropPrefixQ] at h; subst h; exact hc
  | cons p ps ih =>
    intro s rest h c hc
    cases s with
    | nil => simp [dropPrefixQ] at h
    | cons a as =>
      simp only [dropPrefixQ] at h
      by_cases hp : p = a
      · rw [if_pos hp] at h
        exact List.mem_cons_of_mem a (ih as rest h c hc)
      · rw [if_neg hp] at h
        exact absurd h (by simp)

theorem replaceAllGo_chars (pat rep : List Char) :
    ∀ (fuel : Nat) (s : List Char), ∀ c ∈ replaceAllGo pat rep fuel s, c ∈ s ∨ c ∈ rep := by
  intro fuel
  induction fuel with
  | zero =>
    intro s c hc
    cases s with
    | nil => simp [replaceAllGo] at hc
    | cons a as => simp only [replaceAllGo] at hc; exact Or.inl hc
  | succ n ih =>
    intro s c hc
    cases s with
    | nil => simp [replaceAllGo] at hc
    | cons a as =>
      simp only [replaceAllGo] at hc
      cases hdp : dropPrefixQ pat (a :: as) with
      | some rest =>
        rw [hdp] at hc
        rcases List.mem_append.mp hc with h | h
        · exact Or.inr h
        · rcases ih rest c h with h1 | h1
          · exact Or.inl (dropPrefixQ_chars pat (a :: as) rest hdp c h1)
          · exact Or.inr h1
      | none =>
        rw [hdp] at hc
        rcases List.mem_cons.mp hc with h | h
        · exact Or.inl (by simp [h])
        · rcases ih as c h with h1 | h1
          · exact Or.inl (by simp [h1])
          · exact Or.inr h1

theorem replaceAll_chars (pat rep s : List Char) :
    ∀ c ∈ replaceAll pat rep s, c ∈ s ∨ c ∈ rep :=
  replaceAllGo_chars pat rep s.length s

theorem substAll_chars :
    ∀ (tbl : List (String × String)) (s : List Char), ∀ c ∈ substAll tbl s,
    c ∈ s ∨ ∃ kv ∈ tbl, c ∈ kv.2.toList.map pyLower := by
  intro tbl
  induction tbl with
  | nil => intro s c hc; exact Or.inl hc
  | cons kv tbl' ih =>
    intro s c hc
    simp only [substAll, List.foldl_cons] at hc
    rcases ih (substStep s kv) c hc with h | h
    · rcases replaceAll_chars _ _ s c h with h1 | h1
      · exact Or.inl h1
      · exact Or.inr ⟨kv, by simp, h1⟩
    · rcases h with ⟨kv', hkv', hc'⟩
      exact Or.inr ⟨kv', by simp [hkv'], hc'⟩

theorem map_eq_self_of_fixed {α : Type} (f : α → α) :
    ∀ l : List α, (∀ c ∈ l, f c = c) → l.map f = l := by
  intro l
  induction l with
  | nil => intro _; rfl
  | cons a as ih =>
    intro h
    simp only [List.map_cons]
    rw [h a (by simp), ih (fun c hc => h c (by simp [hc]))]

theorem variation_values_ok :
    (thaiWordVariations.all fun kv => (kv.2.toList.map pyLower).all charOK) = true := by
  decide

theorem charOK_space : charOK ' ' = true := by decide

theorem normalize_chars_ok (s : String) :
    ∀ c ∈ (normalize_thai_text s).toList, charOK c = true := by
  intro c hc
  unfold normalize_thai_text at hc
  by_cases hs : s = ""
  · rw [if_pos hs] at hc; simp [String.toList] at hc
  · rw [if_neg hs] at hc
    simp only [String.toList] at hc
    rcases collapseWs_chars _ c hc with h4 | h4
    · rcases substAll_chars _ _ c h4 with h3 | h3
      · rw [List.mem_filter] at h3
        obtain ⟨h3a, h3b⟩ := h3
        rw [List.mem_map] at h3a
        obtain ⟨d, _, hd⟩ := h3a
        have hfix : pyLower c = c := by rw [← hd]; exact pyLower_idem d
        simp [charOK, hfix, h3b]
      · rcases h3 with ⟨kv, hkv, hcv⟩
        have := variation_values_ok
        rw [List.all_eq_true] at this
        have h5 := this kv hkv
        rw [List.all_eq_true] at h5
        exact h5 c hcv
    · subst h4; exact charOK_space

theorem normalize_collapsed (x : String) :
    collapseWs (normalize_thai_text x).toList = (normalize_thai_text x).toList := by
  unfold normalize_thai_text
  by_cases hx : x = ""
  · rw [if_pos hx]; rfl
  · rw [if_neg hx]
    simp only [String.toList]
    exact collapseWs_idem _

theorem string_mk_toList (s : String) : String.mk s.toList = s := rfl

theorem normalize_idem_of_substFix (x : String)
    (h : substAll thaiWordVariations (normalize_thai_text x).toList =
         (normalize_thai_text x).toList) :
    normalize_thai_text (normalize_thai_text x) = normalize_thai_text x := by
  set y := normalize_thai_text x with hy
  by_cases hye : y = ""
  · rw [hye]; rfl
  · have hchars := normalize_chars_ok x
    rw [← hy] at hchars
    have hcoll : collapseWs y.toList = y.toList := by
      rw [hy]; exact normalize_collapsed x
    have hlower : y.toList.map pyLower = y.toList :=
      map_eq_self_of_fixed pyLower y.toList (fun c hc => by
        have := hchars c hc
        simp [charOK] at this
        exact this.1)
    have hfilter : y.toList.filter (fun c => !isPunct c) = y.toList :=
      List.filter_eq_self.mpr (fun c hc => by
        have := hchars c hc
        simp [charOK] at this
        simp [this.2])
    show normalize_thai_text y = y
    unfold normalize_thai_text
    rw [if_neg hye]
    simp only [String.toList] at *
    rw [hcoll, hlower, hfilter, h, hcoll]

theorem le_foldl_max (f : Product → ℚ) :
    ∀ (l : List Product) (b : ℚ), b ≤ l.foldl (fun acc x => max acc (f x)) b := by
  intro l
  induction l with
  | nil => intro b; simp
  | cons x xs ih =>
    intro b
    simp only [List.foldl_cons]
    exact le_trans (le_max_left b (f x)) (ih (max b (f x)))

theorem mem_le_foldl_max (f : Product → ℚ) :
    ∀ (l : List Product) (b : ℚ) (x : Product), x ∈ l →
    f x ≤ l.foldl (fun acc y => max acc (f y)) b := by
  intro l
  induction l with
  | nil => intro b x hx; simp at hx
  | cons y ys ih =>
    intro b x hx
    rcases List.mem_cons.mp hx with h | h
    · subst h
      simp only [List.foldl_cons]
      exact le_trans (le_max_right b (f x)) (le_foldl_max f ys (max b (f x)))
    · simp only [List.foldl_cons]
      exact ih (max b (f y)) x h

theorem scanBest_snd (ratio : String → String → ℚ) (ni : String) :
    ∀ (ps : List Product) (bp : Option Product) (bs : ℚ),
    (scanBest ratio ni ps (bp, bs)).2 =
      ps.foldl (fun acc p => max acc (fuzzyScore ratio ni p)) bs := by
  intro ps
  induction ps with
  | nil => intro bp bs; rfl
  | cons p ps' ih =>
    intro bp bs
    simp only [scanBest, List.foldl_cons]
    by_cases h : bs < fuzzyScore ratio ni p
    · rw [if_pos h, ih, max_eq_right (le_of_lt h)]
    · rw [if_neg h, ih, max_eq_left (le_of_not_lt h)]

theorem scanBest_fst_stable (ratio : String → String → ℚ) (ni : String) :
    ∀ (ps : List Product) (bp : Option Product) (bs : ℚ),
    (scanBest ratio ni ps (bp, bs)).2 = bs → (scanBest ratio ni ps (bp, bs)).1 = bp := by
  intro ps
  induction ps with
  | nil => intro bp bs _; rfl
  | cons p ps' ih =>
    intro bp bs h
    simp only [scanBest] at h ⊢
    by_cases hlt : bs < fuzzyScore ratio ni p
    · rw [if_pos hlt] at h ⊢
      exfalso
      have h2 := le_foldl_max (fuzzyScore ratio ni) ps' (fuzzyScore ratio ni p)
      rw [← scanBest_snd ratio ni ps' (some p) (fuzzyScore ratio ni p)] at h2
      rw [h] at h2
      exact absurd (lt_of_lt_of_le hlt h2) (lt_irrefl bs)
    · rw [if_neg hlt] at h ⊢
      exact ih bp bs h

theorem scanBest_fst_of_lt (ratio : String → String → ℚ) (ni : String) :
    ∀ (ps : List Product) (bp : Option Product) (bs : ℚ),
    bs < (scanBest ratio ni ps (bp, bs)).2 →
    ∃ p, ps.find? (fun q => decide (fuzzyScore ratio ni q = (scanBest ratio ni ps (bp, bs)).2)) = some p ∧
      (scanBest ratio ni ps (bp, bs)).1 = some p := by
  intro ps
  induction ps with
  | nil => intro bp bs h; simp [scanBest] at h
  | cons p ps' ih =>
    intro bp bs h
    simp only [scanBest] at h ⊢
    by_cases hlt : bs < fuzzyScore ratio ni p
    · simp only [if_pos hlt] at h ⊢
      by_cases heq : (scanBest ratio ni ps' (some p, fuzzyScore ratio ni p)).2 = fuzzyScore ratio ni p
      · refine ⟨p, ?_, ?_⟩
        · rw [List.find?_cons, heq]
          simp
        · rw [scanBest_fst_stable ratio ni ps' (some p) _ heq]
      · have hlt2 : fuzzyScore ratio ni p < (scanBest ratio ni ps' (some p, fuzzyScore ratio ni p)).2 := by
          have hle := le_foldl_max (fuzzyScore ratio ni) ps' (fuzzyScore ratio ni p)
          rw [← scanBest_snd ratio ni ps' (some p) (fuzzyScore ratio ni p)] at hle
          exact lt_of_le_of_ne hle (fun e => heq e.symm)
        obtain ⟨q, hfind, hfst⟩ := ih (some p) (fuzzyScore ratio ni p) hlt2
        refine ⟨q, ?_, hfst⟩
        rw [List.find?_cons, decide_eq_false (fun e => heq e.symm)]
        exact hfind
    · simp only [if_neg hlt] at h ⊢
      obtain ⟨q, hfind, hfst⟩ := ih bp bs h
      refine ⟨q, ?_, hfst⟩
      have hne : ¬ fuzzyScore ratio ni p = (scanBest ratio ni ps' (bp, bs)).2 := by
        intro e
        rw [← e] at h
        exact hlt h
      rw [List.find?_cons, decide_eq_false hne]
      exact hfind

theorem fuzzyPass_none_of_small (ratio : String → String → ℚ) (cat : List Product)
    (item : String)
    (h : cat.foldl (fun acc p => max acc (fuzzyScore ratio (normalize_thai_text item) p)) 0 < Rat.divInt 7 10) :
    fuzzyPass ratio (.ok cat) item = none := by
  show (match scanBest ratio (normalize_thai_text item) cat (none, 0) with
    | (some p, bs) =>
      if Rat.divInt 7 10 ≤ bs then some (MatchedProduct.mk p.id p.name p.unit bs) else none
    | (none, _) => none) = none
  have hsnd := scanBest_snd ratio (normalize_thai_text item) cat none 0
  cases hsb : scanBest ratio (normalize_thai_text item) cat (none, 0) with
  | mk bp bs =>
    rw [hsb] at hsnd
    simp only at hsnd
    cases bp with
    | none => rfl
    | some p =>
      simp only
      rw [if_neg]
      rw [hsnd]
      exact not_le_of_lt h

theorem fuzzyPass_some_of_big (ratio : String → String → ℚ) (cat : List Product)
    (item : String)
    (h : Rat.divInt 7 10 ≤ cat.foldl (fun acc p => max acc (fuzzyScore ratio (normalize_thai_text item) p)) 0) :
    ∃ p, cat.find? (fun q => decide (fuzzyScore ratio (normalize_thai_text item) q =
        cat.foldl (fun acc p => max acc (fuzzyScore ratio (normalize_thai_text item) p)) 0)) = some p ∧
      fuzzyPass ratio (.ok cat) item =
        some ⟨p.id, p.name, p.unit,
          cat.foldl (fun acc p => max acc (fuzzyScore ratio (normalize_thai_text item) p)) 0⟩ := by
  have hsnd := scanBest_snd ratio (normalize_thai_text item) cat none 0
  have hpos : (0 : ℚ) < (scanBest ratio (normalize_thai_text item) cat (none, 0)).2 := by
    rw [hsnd]
    exact lt_of_lt_of_le (by decide) h
  obtain ⟨p, hfind, hfst⟩ := scanBest_fst_of_lt ratio (normalize_thai_text item) cat none 0 hpos
  rw [hsnd] at hfind
  refine ⟨p, hfind, ?_⟩
  show (match scanBest ratio (normalize_thai_text item) cat (none, 0) with
    | (some p, bs) =>
      if Rat.divInt 7 10 ≤ bs then some (MatchedProduct.mk p.id p.name p.unit bs) else none
    | (none, _) => none) = _
  have heq : scanBest ratio (normalize_thai_text item) cat (none, 0) =
      (some p, cat.foldl (fun acc p => max acc (fuzzyScore ratio (normalize_thai_text item) p)) 0) := by
    rw [← hsnd]
    exact Prod.ext hfst rfl
  rw [heq]
  simp only
  rw [if_pos h]

theorem run_extraction_error (env : PipelineEnv) (r : Receipt) (e : String)
    (h : env.extraction = .error e) :
    run_receipt_pipeline env r =
      ⟨markFailed { r with status := .processing } none e,
       [.report 33 "vision_extraction" extractionMsg], .error e⟩ := by
  unfold run_receipt_pipeline
  rw [h]

theorem run_no_items (env : PipelineEnv) (r : Receipt) (raw : String)
    (h : env.extraction = .ok ([], raw)) :
    run_receipt_pipeline env r =
      ⟨markFailed { r with status := .processing, raw_text := some raw } (some raw)
        ("No items extracted from receipt\n\nข้อมูลที่ OCR ได้: " ++
          (if raw = "" then "N/A" else raw)),
       [.report 33 "vision_extraction" extractionMsg, .extractionReturned],
       .error ("No items extracted from receipt\n\nข้อมูลที่ OCR ได้: " ++
          (if raw = "" then "N/A" else raw))⟩ := by
  unfold run_receipt_pipeline
  rw [h]
  rfl

theorem run_no_matched (env : PipelineEnv) (r : Receipt)
    (items : List ExtractedItem) (raw : String)
    (h : env.extraction = .ok (items, raw)) (hne : items ≠ [])
    (hm : pipelineMatched env items = []) :
    run_receipt_pipeline env r =
      ⟨markFailed { r with status := .processing, raw_text := some raw } (some raw)
        ("No products could be matched from the receipt" ++
          (if raw ≠ "" then "\n\nข้อมูลที่ OCR ได้: " ++ raw else "")),
       [.report 33 "vision_extraction" extractionMsg, .extractionReturned,
        .report 66 "matching" matchingMsg, .matchingDone],
       .error ("No products could be matched from the receipt" ++
          (if raw ≠ "" then "\n\nข้อมูลที่ OCR ได้: " ++ raw else ""))⟩ := by
  cases items with
  | nil => exact absurd rfl hne
  | cons a as =>
    unfold run_receipt_pipeline
    rw [h]
    simp only [hm]
    rfl

theorem run_no_validated (env : PipelineEnv) (r : Receipt)
    (items : List ExtractedItem) (raw : String)
    (h : env.extraction = .ok (items, raw)) (hne : items ≠ [])
    (hm : pipelineMatched env items ≠ [])
    (hv : pipelineValidated env (pipelineMatched env items) = []) :
    run_receipt_pipeline env r =
      ⟨markFailed { r with status := .processing, raw_text := some raw } (some raw)
        ("No items could be validated" ++
          (if raw ≠ "" then "\n\nข้อมูลที่ OCR ได้: " ++ raw else "")),
       [.report 33 "vision_extraction" extractionMsg, .extractionReturned,
        .report 66 "matching" matchingMsg, .matchingDone,
        .report 100 "validation" validationMsg, .validationDone],
       .error ("No items could be validated" ++
          (if raw ≠ "" then "\n\nข้อมูลที่ OCR ได้: " ++ raw else ""))⟩ := by
  cases items with
  | nil => exact absurd rfl hne
  | cons a as =>
    unfold run_receipt_pipeline
    rw [h]
    simp only [hv]
    rw [if_neg (show ¬(a :: as = []) by simp)]
    rw [if_neg hm]
    rfl

theorem run_success (env : PipelineEnv) (r : Receipt)
    (items : List ExtractedItem) (raw : String)
    (h : env.extraction = .ok (items, raw)) (hne : items ≠ [])
    (hm : pipelineMatched env items ≠ [])
    (hv : pipelineValidated env (pipelineMatched env items) ≠ []) :
    run_receipt_pipeline env r =
      ⟨{ r with
          status := .pending_confirmation,
          raw_text := some raw,
          extracted_data := some (ResultData.mk r.id
            (pipelineValidated env (pipelineMatched env items))
            (pipelineValidated env (pipelineMatched env items)).length
            (pipelineUnmatched env items) (env.publicUrl r.image_url)),
          error_message := none },
       [.report 33 "vision_extraction" extractionMsg, .extractionReturned,
        .report 66 "matching" matchingMsg, .matchingDone,
        .report 100 "validation" validationMsg, .validationDone],
       .ok (ResultData.mk r.id
            (pipelineValidated env (pipelineMatched env items))
            (pipelineValidated env (pipelineMatched env items)).length
            (pipelineUnmatched env items) (env.publicUrl r.image_url))⟩ := by
  cases items with
  | nil => exact absurd rfl hne
  | cons a as =>
    unfold run_receipt_pipeline
    rw [h]
    simp only [if_neg (show ¬(a :: as = []) by simp), if_neg hm, if_neg hv]
    rfl

/-! ## Claim theorems -/

/-- Claim C3 (amended): `normalize_thai_text` is total — it returns a value
for every string and maps the empty string to the empty string — and
applying it twice gives the same result as applying it once for exactly
those inputs whose normal form is left unchanged by the variation
substitution pass; full idempotence fails (see the counterexample). -/
theorem claim_C3_amended :
    normalize_thai_text "" = "" ∧
    ∀ x : String,
      substAll thaiWordVariations (normalize_thai_text x).toList =
        (normalize_thai_text x).toList →
      normalize_thai_text (normalize_thai_text x) = normalize_thai_text x :=
  ⟨rfl, fun x h => normalize_idem_of_substFix x h⟩

/-- Claim C3 witness: the conditional idempotence applies to the concrete
receipt name `"โค้ก 325 มล."`, whose normal form the substitution pass
fixes. -/
theorem claim_C3_witness :
    substAll thaiWordVariations (normalize_thai_text "โค้ก 325 มล.").toList =
      (normalize_thai_text "โค้ก 325 มล.").toList ∧
    normalize_thai_text (normalize_thai_text "โค้ก 325 มล.") =
      normalize_thai_text "โค้ก 325 มล." :=
  ⟨by decide, claim_C3_amended.2 "โค้ก 325 มล." (by decide)⟩

/-- Claim C3 counterexample: `normalize_thai_text` is not idempotent as
claimed.  The variation table maps `มะเขือ` to `มะเขือเทศ`, whose own
normalization replaces the embedded `มะเขือ` again, giving `มะเขือเทศเทศ`. -/
theorem claim_C3_counterexample :
    normalize_thai_text (normalize_thai_text "มะเขือ") ≠ normalize_thai_text "มะเขือ" := by
  decide

/-- Claim C4: whenever the vector pass sees a single nearest row with
vector similarity above `0.7` but corroborating text similarity below
`0.6`, it yields nothing and `find_matching_product` falls through to the
fuzzy fallback. -/
theorem claim_C4 (ratio : String → String → ℚ) (env : MatchEnv) (item : String)
    (row : VecRow) (hrow : env.vector = .ok (some row))
    (hsim : Rat.divInt 7 10 < row.similarity)
    (htext : vectorTextSim ratio (normalize_thai_text item)
        (normalize_thai_text row.name) < Rat.divInt 6 10) :
    vectorPass ratio env.vector item = none ∧
    find_matching_product ratio env item = fuzzyPass ratio env.catalog item := by
  have hvp : vectorPass ratio env.vector item = none := by
    unfold vectorPass
    rw [hrow]
    simp only
    rw [if_pos hsim, if_neg (not_le_of_lt htext)]
  refine ⟨hvp, ?_⟩
  unfold find_matching_product
  rw [hvp]

/-- Claim C4 witness: a concrete rejection — vector similarity `0.9`,
text similarity `0` — falls through to the fuzzy fallback. -/
theorem claim_C4_witness :
    vectorPass (fun _ _ => 0)
      (MatchEnv.mk (.ok (some ⟨"P1", "xyz", "u", Rat.divInt 9 10⟩)) (.ok [])).vector "abc" = none ∧
    find_matching_product (fun _ _ => 0)
      (MatchEnv.mk (.ok (some ⟨"P1", "xyz", "u", Rat.divInt 9 10⟩)) (.ok [])) "abc" =
      fuzzyPass (fun _ _ => 0)
        (MatchEnv.mk (.ok (some ⟨"P1", "xyz", "u", Rat.divInt 9 10⟩)) (.ok [])).catalog "abc" :=
  claim_C4 (fun _ _ => 0) (MatchEnv.mk (.ok (some ⟨"P1", "xyz", "u", Rat.divInt 9 10⟩)) (.ok []))
    "abc" ⟨"P1", "xyz", "u", Rat.divInt 9 10⟩ rfl (by decide) (by decide)

/-- Claim C5 (amended): the fuzzy fallback scores containment as `0.95`
only when the normalized strings are equal and as `0.85` on strict
containment (not `0.95` as the vector pass does — see the counterexample);
it returns the first candidate reaching the maximum score with that score
as `similarity_score` when the maximum is at least `0.7`, and `None`
otherwise. -/
theorem claim_C5_amended (ratio : String → String → ℚ) (cat : List Product)
    (item : String) :
    (cat.foldl (fun acc p => max acc (fuzzyScore ratio (normalize_thai_text item) p)) 0 < Rat.divInt 7 10 →
      fuzzyPass ratio (.ok cat) item = none) ∧
    (Rat.divInt 7 10 ≤ cat.foldl (fun acc p => max acc (fuzzyScore ratio (normalize_thai_text item) p)) 0 →
      ∃ p, cat.find? (fun q => decide (fuzzyScore ratio (normalize_thai_text item) q =
            cat.foldl (fun acc p => max acc (fuzzyScore ratio (normalize_thai_text item) p)) 0)) =
          some p ∧
        fuzzyPass ratio (.ok cat) item = some ⟨p.id, p.name, p.unit,
          cat.foldl (fun acc p => max acc (fuzzyScore ratio (normalize_thai_text item) p)) 0⟩) :=
  ⟨fuzzyPass_none_of_small ratio cat item, fuzzyPass_some_of_big ratio cat item⟩

/-- Claim C5 witness: on a catalog with two candidates tied at the maximum
score `0.95`, the fallback returns the first of them, with the maximum as
its score. -/
theorem claim_C5_witness :
    ∃ p, ([⟨"P1", "ab", "u", 0, 0⟩, ⟨"P2", "ab", "v", 0, 0⟩] : List Product).find?
        (fun q => decide (fuzzyScore (fun _ _ => 0) (normalize_thai_text "ab") q =
          ([⟨"P1", "ab", "u", 0, 0⟩, ⟨"P2", "ab", "v", 0, 0⟩] : List Product).foldl
            (fun acc p => max acc (fuzzyScore (fun _ _ => 0) (normalize_thai_text "ab") p)) 0)) =
        some p ∧
      fuzzyPass (fun _ _ => 0) (.ok [⟨"P1", "ab", "u", 0, 0⟩, ⟨"P2", "ab", "v", 0, 0⟩]) "ab" =
        some ⟨p.id, p.name, p.unit,
          ([⟨"P1", "ab", "u", 0, 0⟩, ⟨"P2", "ab", "v", 0, 0⟩] : List Product).foldl
            (fun acc p => max acc (fuzzyScore (fun _ _ => 0) (normalize_thai_text "ab") p)) 0⟩ :=
  (claim_C5_amended (fun _ _ => 0)
    [⟨"P1", "ab", "u", 0, 0⟩, ⟨"P2", "ab", "v", 0, 0⟩] "ab").2 (by decide)

/-- Claim C5 counterexample: the fallback does not use the same
containment rule as the vector pass.  For query `"ab"` against candidate
name `"abc"` (strict containment) the code scores `0.85` and returns that
as `similarity_score`, while the claimed rule gives `0.95`. -/
theorem claim_C5_counterexample :
    find_matching_product (fun _ _ => 0)
      (MatchEnv.mk (.error ()) (.ok [⟨"P9", "abc", "u", 0, 0⟩])) "ab" =
      some ⟨"P9", "abc", "u", Rat.divInt 85 100⟩ ∧
    fuzzyScore (fun _ _ => 0) (normalize_thai_text "ab") ⟨"P9", "abc", "u", 0, 0⟩ ≠
      fuzzyScorePerSpec (fun _ _ => 0) (normalize_thai_text "ab") ⟨"P9", "abc", "u", 0, 0⟩ := by
  decide

/-- Claim C6: when the embedding call (or vector query) raises, the
matcher silently falls back to the fuzzy pass, returning a candidate
exactly when some catalog entry scores at least `0.7`; when the fallback's
catalog scan itself raises, the matcher returns `None` instead of
propagating. -/
theorem claim_C6 (ratio : String → String → ℚ) (env : MatchEnv) (item : String)
    (hvec : env.vector = .error ()) :
    (env.catalog = .error () → find_matching_product ratio env item = none) ∧
    (∀ cat, env.catalog = .ok cat →
      ((find_matching_product ratio env item).isSome = true ↔
        ∃ p ∈ cat, Rat.divInt 7 10 ≤ fuzzyScore ratio (normalize_thai_text item) p)) := by
  have hfmp : find_matching_product ratio env item = fuzzyPass ratio env.catalog item := by
    unfold find_matching_product vectorPass
    rw [hvec]
  constructor
  · intro hcat
    rw [hfmp, hcat]
    rfl
  · intro cat hcat
    rw [hfmp, hcat]
    constructor
    · intro hsome
      by_cases hbig : Rat.divInt 7 10 ≤ cat.foldl
          (fun acc p => max acc (fuzzyScore ratio (normalize_thai_text item) p)) 0
      · obtain ⟨p, hfind, -⟩ := fuzzyPass_some_of_big ratio cat item hbig
        refine ⟨p, List.mem_of_find?_eq_some hfind, ?_⟩
        have := List.find?_some hfind
        rw [decide_eq_true_eq] at this
        rw [this]
        exact hbig
      · rw [fuzzyPass_none_of_small ratio cat item (lt_of_not_le hbig)] at hsome
        simp at hsome
    · rintro ⟨p, hp, hscore⟩
      have hbig : Rat.divInt 7 10 ≤ cat.foldl
          (fun acc p => max acc (fuzzyScore ratio (normalize_thai_text item) p)) 0 :=
        le_trans hscore (mem_le_foldl_max _ cat 0 p hp)
      obtain ⟨q, -, heq⟩ := fuzzyPass_some_of_big ratio cat item hbig
      rw [heq]
      rfl

/-- Claim C6 witness: with a raising embedding call and the one-entry
catalog `["abc"]`, the query `"ab"` still resolves through the fallback. -/
theorem claim_C6_witness :
    (find_matching_product (fun _ _ => 0)
      (MatchEnv.mk (.error ()) (.ok [⟨"P9", "abc", "u", 0, 0⟩])) "ab").isSome = true :=
  ((claim_C6 (fun _ _ => 0) (MatchEnv.mk (.error ()) (.ok [⟨"P9", "abc", "u", 0, 0⟩]))
      "ab" rfl).2 [⟨"P9", "abc", "u", 0, 0⟩] rfl).mpr
    ⟨⟨"P9", "abc", "u", 0, 0⟩, by decide, by decide⟩


theorem bumpFirst_ids (pid : String) (q : Int) :
    ∀ ps : List Product, (bumpFirst ps pid q).map Product.id = ps.map Product.id := by
  intro ps
  induction ps with
  | nil => rfl
  | cons p ps' ih =>
    by_cases h : p.id = pid
    · simp [bumpFirst, h]
    · simp [bumpFirst, h, ih]

theorem updateInventoryGo_error_of_missing :
    ∀ (items : List ValidatedItem) (ps : List Product) (low : List LowStockEntry),
    (∃ it ∈ items, ∀ p ∈ ps, ¬ p.id = it.product_id) →
    ∃ e, updateInventoryGo ps items low = .error e := by
  intro items
  induction items with
  | nil => intro ps low h; simp at h
  | cons it0 rest ih =>
    intro ps low h
    obtain ⟨it, hit, hmiss⟩ := h
    cases hfind : ps.find? (fun p => p.id = it0.product_id) with
    | none =>
      exact ⟨"Product with id " ++ it0.product_id ++ " not found",
        by simp [updateInventoryGo, hfind]⟩
    | some p =>
      rcases List.mem_cons.mp hit with heq | hmem
      · exfalso
        have hp := List.mem_of_find?_eq_some hfind
        have := List.find?_some hfind
        rw [decide_eq_true_eq] at this
        subst heq
        exact hmiss p hp this
      · have hmiss2 : ∀ p' ∈ bumpFirst ps it0.product_id it0.quantity, ¬ p'.id = it.product_id := by
          intro p' hp'
          have hid : p'.id ∈ (bumpFirst ps it0.product_id it0.quantity).map Product.id :=
            List.mem_map_of_mem Product.id hp'
          rw [bumpFirst_ids] at hid
          obtain ⟨p0, hp0, hpid⟩ := List.mem_map.mp hid
          rw [← hpid]
          exact hmiss p0 hp0
        obtain ⟨e, he⟩ := ih (bumpFirst ps it0.product_id it0.quantity) _ ⟨it, hmem, hmiss2⟩
        exact ⟨e, by simp [updateInventoryGo, hfind]; exact he⟩

/-- Claim C1: when a confirmation request references a product id with no
matching `Product` row, the whole reconciliation aborts: the caller gets
the error, product quantities, transactions and transaction items are
unchanged, and the receipt is still found in `PendingConfirmation`. -/
theorem claim_C1 (s : Session) (rid : String) (items : List ConfirmReceiptItem)
    (receipt : Receipt)
    (hclean : s.state = s.committed)
    (hfind : s.state.receipts.find? (fun r => r.id = rid) = some receipt)
    (hstatus : receipt.status = .pending_confirmation)
    (hmiss : ∃ it ∈ items, ∀ p ∈ s.state.products, ¬ p.id = it.product_id) :
    (∃ e, confirm_receipt s rid items = (s, .error (.badRequest e))) ∧
    (confirm_receipt s rid items).1.state.products = s.state.products ∧
    (confirm_receipt s rid items).1.state.transactions = s.state.transactions ∧
    (confirm_receipt s rid items).1.state.transaction_items = s.state.transaction_items ∧
    (confirm_receipt s rid items).1.state.receipts.find? (fun r => r.id = rid) = some receipt := by
  have hmiss' : ∃ it ∈ confirmValidatedItems items,
      ∀ p ∈ s.state.products, ¬ p.id = it.product_id := by
    obtain ⟨it, hit, hm⟩ := hmiss
    exact ⟨⟨it.product_id, it.product_name, it.quantity, it.unit, 1, it.original_text⟩,
      List.mem_map_of_mem _ hit, hm⟩
  have hupd : ∃ e, update_inventory s.state.products (confirmValidatedItems items) = .error e := by
    obtain ⟨it, hit, hm⟩ := hmiss'
    have hne : confirmValidatedItems items ≠ [] := by
      intro h
      rw [h] at hit
      simp at hit
    unfold update_inventory
    rw [if_neg hne]
    exact updateInventoryGo_error_of_missing _ _ _ ⟨it, hit, hm⟩
  obtain ⟨e, he⟩ := hupd
  have hconf : confirm_receipt s rid items = (rollbackS s, .error (.badRequest e)) := by
    unfold confirm_receipt
    rw [hfind]
    simp only [if_neg (show ¬receipt.status ≠ .pending_confirmation from fun h => h hstatus), he]
  have hrb : rollbackS s = s := by
    unfold rollbackS
    cases s with
    | mk st cm =>
      simp only at hclean
      rw [hclean]
  rw [hconf, hrb]
  exact ⟨⟨e, rfl⟩, rfl, rfl, rfl, hfind⟩

theorem bumpFirst_find_self (pid : String) (q : Int) :
    ∀ (ps : List Product) (p : Product),
    ps.find? (fun r => r.id = pid) = some p →
    (bumpFirst ps pid q).find? (fun r => r.id = pid) =
      some { p with quantity := p.quantity + q } := by
  intro ps
  induction ps with
  | nil => intro p h; simp at h
  | cons p0 ps' ih =>
    intro p h
    by_cases h0 : p0.id = pid
    · rw [List.find?_cons, decide_eq_true h0] at h
      injection h with h
      subst h
      unfold bumpFirst
      rw [if_pos h0, List.find?_cons, decide_eq_true (show Product.id { p0 with quantity := p0.quantity + q } = pid from h0)]
    · rw [List.find?_cons, decide_eq_false h0] at h
      unfold bumpFirst
      rw [if_neg h0, List.find?_cons, decide_eq_false h0]
      exact ih p h

theorem bumpFirst_find_other (pid : String) (q : Int) (x : String) (hne : x ≠ pid) :
    ∀ ps : List Product,
    (bumpFirst ps pid q).find? (fun r => r.id = x) = ps.find? (fun r => r.id = x) := by
  intro ps
  induction ps with
  | nil => rfl
  | cons p0 ps' ih =>
    by_cases h0 : p0.id = pid
    · have hx : ¬ p0.id = x := fun h => hne (h ▸ h0.symm ▸ rfl)
      unfold bumpFirst
      rw [if_pos h0, List.find?_cons,
        decide_eq_false (show ¬ Product.id { p0 with quantity := p0.quantity + q } = x from hx),
        List.find?_cons, decide_eq_false hx]
    · unfold bumpFirst
      rw [if_neg h0]
      by_cases hx : p0.id = x
      · rw [List.find?_cons, decide_eq_true hx, List.find?_cons, decide_eq_true hx]
      · rw [List.find?_cons, decide_eq_false hx, List.find?_cons, decide_eq_false hx]
        exact ih

theorem updateInventoryGo_frame :
    ∀ (items : List ValidatedItem) (ps : List Product) (low : List LowStockEntry)
      (ps' : List Product) (low' : List LowStockEntry) (x : String),
    updateInventoryGo ps items low = .ok (ps', low') →
    (∀ it ∈ items, ¬ it.product_id = x) →
    ps'.find? (fun p => p.id = x) = ps.find? (fun p => p.id = x) := by
  intro items
  induction items with
  | nil =>
    intro ps low ps' low' x h _
    simp [updateInventoryGo] at h
    rw [h.1]
  | cons it0 rest ih =>
    intro ps low ps' low' x h hnot
    cases hfind : ps.find? (fun p => p.id = it0.product_id) with
    | none => simp [updateInventoryGo, hfind] at h
    | some p =>
      simp only [updateInventoryGo, hfind] at h
      have h1 := ih _ _ _ _ x h (fun it hit => hnot it (by simp [hit]))
      rw [h1]
      exact bumpFirst_find_other it0.product_id it0.quantity x
        (fun he => hnot it0 (by simp) he.symm) ps

theorem updateInventoryGo_low_mem :
    ∀ (items : List ValidatedItem) (ps : List Product) (low : List LowStockEntry)
      (ps' : List Product) (low' : List LowStockEntry),
    (items.map (fun it => it.product_id)).Nodup →
    updateInventoryGo ps items low = .ok (ps', low') →
    ∀ e : LowStockEntry, e ∈ low' ↔ e ∈ low ∨ ∃ it ∈ items, ∃ p,
      ps'.find? (fun q => q.id = it.product_id) = some p ∧
      p.quantity < p.reorder_point ∧
      e = ⟨p.id, p.name, p.quantity, p.reorder_point, p.unit⟩ := by
  intro items
  induction items with
  | nil =>
    intro ps low ps' low' _ h e
    simp [updateInventoryGo] at h
    rw [← h.1, ← h.2]
    simp
  | cons it0 rest ih =>
    intro ps low ps' low' hnd h e
    cases hfind : ps.find? (fun p => p.id = it0.product_id) with
    | none => simp [updateInventoryGo, hfind] at h
    | some p =>
      simp only [updateInventoryGo, hfind] at h
      rw [List.map_cons, List.nodup_cons] at hnd
      obtain ⟨hnotin, hnd'⟩ := hnd
      have hframe : ps'.find? (fun q => q.id = it0.product_id) =
          (bumpFirst ps it0.product_id it0.quantity).find? (fun q => q.id = it0.product_id) :=
        updateInventoryGo_frame rest _ _ _ _ it0.product_id h
          (fun it hit heq => hnotin (heq ▸ List.mem_map_of_mem (fun it => it.product_id) hit))
      have hself : (bumpFirst ps it0.product_id it0.quantity).find? (fun q => q.id = it0.product_id) =
          some { p with quantity := p.quantity + it0.quantity } :=
        bumpFirst_find_self it0.product_id it0.quantity ps p hfind
      have hC : (∃ p', ps'.find? (fun q => q.id = it0.product_id) = some p' ∧
            p'.quantity < p'.reorder_point ∧
            e = ⟨p'.id, p'.name, p'.quantity, p'.reorder_point, p'.unit⟩) ↔
          (p.quantity + it0.quantity < p.reorder_point ∧
            e = ⟨p.id, p.name, p.quantity + it0.quantity, p.reorder_point, p.unit⟩) := by
        rw [hframe, hself]
        constructor
        · rintro ⟨p', hp', h1, h2⟩
          injection hp' with hp'
          subst hp'
          exact ⟨h1, h2⟩
        · rintro ⟨h1, h2⟩
          exact ⟨{ p with quantity := p.quantity + it0.quantity }, rfl, h1, h2⟩
      have IH := ih _ _ _ _ hnd' h e
      rw [IH]
      have hlowmem : e ∈ (if p.quantity + it0.quantity < p.reorder_point then
          low ++ [(⟨p.id, p.name, p.quantity + it0.quantity, p.reorder_point, p.unit⟩ : LowStockEntry)]
          else low) ↔
          e ∈ low ∨ (p.quantity + it0.quantity < p.reorder_point ∧
            e = ⟨p.id, p.name, p.quantity + it0.quantity, p.reorder_point, p.unit⟩) := by
        by_cases hlt : p.quantity + it0.quantity < p.reorder_point
        · rw [if_pos hlt]
          simp [hlt]
        · rw [if_neg hlt]
          simp [hlt]
      rw [hlowmem]
      constructor
      · rintro ((h1 | h1) | h1)
        · exact Or.inl h1
        · exact Or.inr ⟨it0, by simp, hC.mpr h1⟩
        · obtain ⟨it, hit, hp⟩ := h1
          exact Or.inr ⟨it, by simp [hit], hp⟩
      · rintro (h1 | h1)
        · exact Or.inl (Or.inl h1)
        · obtain ⟨it, hit, hp⟩ := h1
          rcases List.mem_cons.mp hit with heq | hmem
          · subst heq
            exact Or.inl (Or.inr (hC.mp hp))
          · exact Or.inr ⟨it, hmem, hp⟩

theorem string_data_append (a b : String) : (a ++ b).toList = a.toList ++ b.toList := rfl

theorem string_append_ne_empty (a b : String) (ha : a.toList ≠ []) : a ++ b ≠ "" := by
  intro h
  have : (a ++ b).toList = [] := by rw [h]; rfl
  rw [string_data_append] at this
  exact ha (List.append_eq_nil.mp this).1

theorem dropPrefixQ_append :
    ∀ (pat s rest t : List Char), dropPrefixQ pat s = some rest →
    dropPrefixQ pat (s ++ t) = some (rest ++ t) := by
  intro pat
  induction pat with
  | nil =>
    intro s rest t h
    simp [dropPrefixQ] at h
    subst h
    rfl
  | cons p ps ih =>
    intro s rest t h
    cases s with
    | nil => simp [dropPrefixQ] at h
    | cons c cs =>
      simp only [dropPrefixQ] at h
      by_cases hp : p = c
      · rw [if_pos hp] at h
        simp only [List.cons_append, dropPrefixQ, if_pos hp]
        exact ih cs rest t h
      · rw [if_neg hp] at h
        exact absurd h (by simp)

theorem listInfix_append_right :
    ∀ (s pat t : List Char), listInfix pat s = true → listInfix pat (s ++ t) = true := by
  intro s
  induction s with
  | nil =>
    intro pat t h
    simp [listInfix] at h
    subst h
    cases t with
    | nil => rfl
    | cons c cs => simp [listInfix, dropPrefixQ]
  | cons c cs ih =>
    intro pat t h
    simp only [listInfix, Bool.or_eq_true] at h
    simp only [List.cons_append, listInfix, Bool.or_eq_true]
    rcases h with h | h
    · rw [Option.isSome_iff_exists] at h
      obtain ⟨rest, hrest⟩ := h
      left
      have h2 := dropPrefixQ_append pat (c :: cs) rest t hrest
      rw [show (c :: cs.append t) = ((c :: cs) ++ t) from rfl, h2]
      rfl
    · right
      exact ih pat t h

theorem dropPrefixQ_self :
    ∀ (pat post : List Char), dropPrefixQ pat (pat ++ post) = some post := by
  intro pat
  induction pat with
  | nil => intro post; rfl
  | cons p ps ih =>
    intro post
    simp only [List.cons_append, dropPrefixQ, if_pos rfl]
    exact ih post

theorem listInfix_sandwich :
    ∀ (pre pat post : List Char), listInfix pat (pre ++ (pat ++ post)) = true := by
  intro pre
  induction pre with
  | nil =>
    intro pat post
    simp only [List.nil_append]
    cases hp : pat ++ post with
    | nil =>
      have := List.append_eq_nil.mp hp
      simp [listInfix, this.1]
    | cons c cs =>
      simp only [listInfix, Bool.or_eq_true]
      left
      rw [← hp, dropPrefixQ_self]
      rfl
  | cons c pre' ih =>
    intro pat post
    simp only [List.cons_append, listInfix, Bool.or_eq_true]
    right
    exact ih pat post

theorem strContains_append_left (a b : String) (h : strContains a ocrMarker = true) :
    strContains (a ++ b) ocrMarker = true := by
  unfold strContains at h ⊢
  rw [string_data_append]
  exact listInfix_append_right a.toList ocrMarker.toList b.toList h

theorem strContains_right_self (a b : String) :
    strContains (a ++ b) b = true := by
  unfold strContains
  rw [string_data_append]
  have := listInfix_sandwich a.toList b.toList []
  rw [List.append_nil] at this
  exact this

theorem markFailed_marker (r : Receipt) (raw : String) (error : String)
    (hne : error ≠ "") (hmark : strContains error ocrMarker = true) :
    markFailed r (some raw) error =
      { r with status := .failed, error_message := some error } := by
  unfold markFailed
  rw [if_neg hne]
  simp [hmark]

theorem markFailed_raw_empty (r : Receipt) (error : String) (hne : error ≠ "") :
    markFailed r (some "") error =
      { r with status := .failed, error_message := some error } := by
  unfold markFailed
  rw [if_neg hne]
  simp

/-- Claim C2: a receipt reaches `PendingConfirmation` exactly when at least
one extracted item was both matched and validated; a raising extraction and
each of the three fatal conditions (zero extracted, zero matched, zero
validated — together: zero validated) leave it `Failed`, with an error
message containing the raw OCR text whenever that text is nonempty; on
success the unmatched items are retained in the persisted proposal. -/
theorem claim_C2 (env : PipelineEnv) (r : Receipt) :
    ((run_receipt_pipeline env r).receipt.status = .pending_confirmation ↔
      ∃ items raw, env.extraction = .ok (items, raw) ∧
        pipelineValidated env (pipelineMatched env items) ≠ []) ∧
    (∀ e, env.extraction = .error e →
      (run_receipt_pipeline env r).receipt.status = .failed) ∧
    (∀ items raw, env.extraction = .ok (items, raw) →
      pipelineValidated env (pipelineMatched env items) = [] →
      (run_receipt_pipeline env r).receipt.status = .failed ∧
      ∃ msg, (run_receipt_pipeline env r).receipt.error_message = some msg ∧
        (raw ≠ "" → strContains msg raw = true)) ∧
    (∀ items raw, env.extraction = .ok (items, raw) →
      pipelineValidated env (pipelineMatched env items) ≠ [] →
      (run_receipt_pipeline env r).receipt.extracted_data = some
        ⟨r.id, pipelineValidated env (pipelineMatched env items),
         (pipelineValidated env (pipelineMatched env items)).length,
         pipelineUnmatched env items, env.publicUrl r.image_url⟩) := by
  rcases hex : env.extraction with e | pr
  · rw [run_extraction_error env r e hex]
    refine ⟨⟨fun h => ?_, fun h => ?_⟩, fun _ _ => rfl, fun items' raw' hok => ?_, fun items' raw' hok => ?_⟩
    · exact absurd h (by simp [markFailed])
    · obtain ⟨items', raw', hok, -⟩ := h
      exact Except.noConfusion hok
    · exact Except.noConfusion hok
    · exact Except.noConfusion hok
  · cases pr with
    | mk items raw =>
      by_cases hi : items = []
      · subst hi
        rw [run_no_items env r raw hex]
        have hmsgne : ("No items extracted from receipt\n\nข้อมูลที่ OCR ได้: " ++
            (if raw = "" then "N/A" else raw)) ≠ "" :=
          string_append_ne_empty _ _ (by decide)
        have hmark : strContains ("No items extracted from receipt\n\nข้อมูลที่ OCR ได้: " ++
            (if raw = "" then "N/A" else raw)) ocrMarker = true :=
          strContains_append_left _ _ (by decide)
        rw [markFailed_marker _ raw _ hmsgne hmark]
        refine ⟨⟨fun h => ?_, fun h => ?_⟩, fun e' he' => ?_, fun items' raw' hok hv' => ?_, fun items' raw' hok hv' => ?_⟩
        · exact absurd h (by simp)
        · obtain ⟨items', raw', hok, hvne⟩ := h
          injection hok with h2
          injection h2 with h3 h4
          subst h3
          exact absurd rfl hvne
        · exact Except.noConfusion he'
        · injection hok with h2
          injection h2 with h3 h4
          subst h4
          refine ⟨rfl, _, rfl, fun hraw => ?_⟩
          rw [if_neg hraw]
          exact strContains_right_self _ raw
        · injection hok with h2
          injection h2 with h3 h4
          subst h3
          exact absurd rfl hv'
      · by_cases hm : pipelineMatched env items = []
        · rw [run_no_matched env r items raw hex hi hm]
          have hv0 : pipelineValidated env (pipelineMatched env items) = [] := by
            rw [hm]
            rfl
          have hmsgne : ("No products could be matched from the receipt" ++
              (if raw ≠ "" then "\n\nข้อมูลที่ OCR ได้: " ++ raw else "")) ≠ "" :=
            string_append_ne_empty _ _ (by decide)
          refine ⟨⟨fun h => ?_, fun h => ?_⟩, fun e' he' => ?_, fun items' raw' hok hv' => ?_, fun items' raw' hok hv' => ?_⟩
          · exact absurd h (by simp [markFailed])
          · obtain ⟨items', raw', hok, hvne⟩ := h
            injection hok with h2
            injection h2 with h3 h4
            subst h3
            exact absurd hv0 hvne
          · exact Except.noConfusion he'
          · by_cases hraw : raw = ""
            · subst hraw
              rw [markFailed_raw_empty _ _ hmsgne]
              refine ⟨rfl, _, rfl, fun hraw' => ?_⟩
              injection hok with h2
              injection h2 with h3 h4
              subst h4
              exact absurd rfl hraw'
            · have hmark : strContains ("No products could be matched from the receipt" ++
                  (if raw ≠ "" then "\n\nข้อมูลที่ OCR ได้: " ++ raw else "")) ocrMarker = true := by
                rw [if_pos hraw]
                unfold strContains
                rw [string_data_append, string_data_append, ← List.append_assoc]
                exact listInfix_append_right _ _ _ (by decide)
              rw [markFailed_marker _ raw _ hmsgne hmark]
              refine ⟨rfl, _, rfl, fun hraw' => ?_⟩
              injection hok with h2
              injection h2 with h3 h4
              subst h4
              rw [if_pos hraw]
              unfold strContains
              rw [string_data_append, string_data_append, ← List.append_assoc]
              have := listInfix_sandwich
                (("No products could be matched from the receipt").toList ++
                  ("\n\nข้อมูลที่ OCR ได้: ").toList) raw.toList []
              rw [List.append_nil] at this
              exact this
          · injection hok with h2
            injection h2 with h3 h4
            subst h3
            exact absurd hv0 hv'
        · by_cases hv : pipelineValidated env (pipelineMatched env items) = []
          · rw [run_no_validated env r items raw hex hi hm hv]
            have hmsgne : ("No items could be validated" ++
                (if raw ≠ "" then "\n\nข้อมูลที่ OCR ได้: " ++ raw else "")) ≠ "" :=
              string_append_ne_empty _ _ (by decide)
            refine ⟨⟨fun h => ?_, fun h => ?_⟩, fun e' he' => ?_, fun items' raw' hok hv' => ?_, fun items' raw' hok hv' => ?_⟩
            · exact absurd h (by simp [markFailed])
            · obtain ⟨items', raw', hok, hvne⟩ := h
              injection hok with h2
              injection h2 with h3 h4
              subst h3
              exact absurd hv hvne
            · exact Except.noConfusion he'
            · by_cases hraw : raw = ""
              · subst hraw
                rw [markFailed_raw_empty _ _ hmsgne]
                refine ⟨rfl, _, rfl, fun hraw' => ?_⟩
                injection hok with h2
                injection h2 with h3 h4
                subst h4
                exact absurd rfl hraw'
              · have hmark : strContains ("No items could be validated" ++
                    (if raw ≠ "" then "\n\nข้อมูลที่ OCR ได้: " ++ raw else "")) ocrMarker = true := by
                  rw [if_pos hraw]
                  unfold strContains
                  rw [string_data_append, string_data_append, ← List.append_assoc]
                  exact listInfix_append_right _ _ _ (by decide)
                rw [markFailed_marker _ raw _ hmsgne hmark]
                refine ⟨rfl, _, rfl, fun hraw' => ?_⟩
                injection hok with h2
                injection h2 with h3 h4
                subst h4
                rw [if_pos hraw]
                unfold strContains
                rw [string_data_append, string_data_append, ← List.append_assoc]
                have := listInfix_sandwich
                  (("No items could be validated").toList ++
                    ("\n\nข้อมูลที่ OCR ได้: ").toList) raw.toList []
                rw [List.append_nil] at this
                exact this
            · injection hok with h2
              injection h2 with h3 h4
              subst h3
              exact absurd hv hv'
          · rw [run_success env r items raw hex hi hm hv]
            refine ⟨⟨fun _ => ⟨items, raw, rfl, hv⟩, fun _ => rfl⟩,
              fun e' he' => Except.noConfusion he',
              fun items' raw' hok hv' => ?_, fun items' raw' hok hv' => ?_⟩
            · injection hok with h2
              injection h2 with h3 h4
              subst h3
              exact absurd hv' hv
            · injection hok with h2
              injection h2 with h3 h4
              subst h3
              rfl

/-- Claim C7 (amended): `low_stock_products` is built from the per-item
check made immediately after that item's own update, so when the confirmed
items reference pairwise-distinct products an entry appears exactly for the
referenced products whose final quantity is below their reorder point (for
repeated ids this fails — see the counterexample); the concrete scenario
holds: quantity 5 + 3 = 8 < reorder point 10 yields the `P1` low-stock
entry, and confirmation creates exactly one `Transaction` with
`total_items = 1`. -/
theorem claim_C7_amended :
    (∀ (ps : List Product) (items : List ValidatedItem) (ps' : List Product)
        (low : List LowStockEntry),
      (items.map (fun it => it.product_id)).Nodup →
      update_inventory ps items = .ok (ps', low) →
      ∀ e : LowStockEntry, e ∈ low ↔ ∃ it ∈ items, ∃ p,
        ps'.find? (fun q => q.id = it.product_id) = some p ∧
        p.quantity < p.reorder_point ∧
        e = ⟨p.id, p.name, p.quantity, p.reorder_point, p.unit⟩) ∧
    update_inventory [⟨"P1", "โค้ก 325 มล.", "กระป๋อง", 5, 10⟩]
        [⟨"P1", "โค้ก 325 มล.", 3, "กระป๋อง", 1, "โค้ก 325 มล. 3 กระป๋อง"⟩] =
      .ok ([⟨"P1", "โค้ก 325 มล.", "กระป๋อง", 8, 10⟩],
           [⟨"P1", "โค้ก 325 มล.", 8, 10, "กระป๋อง"⟩]) ∧
    (confirm_receipt
        ⟨⟨[⟨"P1", "โค้ก 325 มล.", "กระป๋อง", 5, 10⟩],
           [⟨"R1", "img", .pending_confirmation, none, none, none⟩], [], [], 0⟩,
         ⟨[⟨"P1", "โค้ก 325 มล.", "กระป๋อง", 5, 10⟩],
           [⟨"R1", "img", .pending_confirmation, none, none, none⟩], [], [], 0⟩⟩
        "R1" [⟨"P1", "โค้ก 325 มล.", 3, "กระป๋อง", "โค้ก 325 มล. 3 กระป๋อง"⟩]).1.state.transactions =
      [⟨0, "R1", 1⟩] := by
  refine ⟨?_, rfl, rfl⟩
  intro ps items ps' low hnd hupd e
  by_cases hi : items = []
  · subst hi
    unfold update_inventory at hupd
    rw [if_pos rfl] at hupd
    injection hupd with h
    injection h with h1 h2
    rw [← h2]
    simp
  · unfold update_inventory at hupd
    rw [if_neg hi] at hupd
    have := updateInventoryGo_low_mem items ps [] ps' low hnd hupd e
    rw [this]
    simp

/-- Claim C7 witness: the amended characterization applied to the
`P1`-scenario produces the expected low-stock membership. -/
theorem claim_C7_witness :
    ∃ it ∈ [(⟨"P1", "โค้ก 325 มล.", 3, "กระป๋อง", 1, "t"⟩ : ValidatedItem)], ∃ p,
      ([(⟨"P1", "โค้ก 325 มล.", "กระป๋อง", 8, 10⟩ : Product)]).find?
          (fun q => q.id = it.product_id) = some p ∧
      p.quantity < p.reorder_point ∧
      (⟨"P1", "โค้ก 325 มล.", 8, 10, "กระป๋อง"⟩ : LowStockEntry) =
        ⟨p.id, p.name, p.quantity, p.reorder_point, p.unit⟩ :=
  (claim_C7_amended.1 [⟨"P1", "โค้ก 325 มล.", "กระป๋อง", 5, 10⟩]
      [⟨"P1", "โค้ก 325 มล.", 3, "กระป๋อง", 1, "t"⟩]
      [⟨"P1", "โค้ก 325 มล.", "กระป๋อง", 8, 10⟩]
      [⟨"P1", "โค้ก 325 มล.", 8, 10, "กระป๋อง"⟩]
      (by decide) rfl
      ⟨"P1", "โค้ก 325 มล.", 8, 10, "กระป๋อง"⟩).mp (by decide)

/-- Claim C7 counterexample: with two confirmed items for the same
product, `low_stock_products` is nonempty (it records the interim quantity
2) although no product's final quantity is below its reorder point, so the
claimed "recompute after all updates" reading is false. -/
theorem claim_C7_counterexample :
    update_inventory [⟨"P1", "n", "u", 0, 5⟩]
        [⟨"P1", "n", 2, "u", 1, "x"⟩, ⟨"P1", "n", 10, "u", 1, "y"⟩] =
      .ok ([⟨"P1", "n", "u", 12, 5⟩], [⟨"P1", "n", 2, 5, "u"⟩]) ∧
    (∀ p ∈ [(⟨"P1", "n", "u", 12, 5⟩ : Product)], ¬ p.quantity < p.reorder_point) :=
  ⟨rfl, by decide⟩

/-- Claim C8 (amended): the pipeline performs no idempotency status check —
a run is completely insensitive to the receipt's prior status (it resets it
to `Processing` and re-executes all stages), and every run ends in
`PendingConfirmation` or `Failed`; in particular a duplicate delivery on a
non-`Processing` receipt re-runs the pipeline instead of being a no-op. -/
theorem claim_C8_amended (env : PipelineEnv) (r : Receipt) (s0 : ReceiptStatus) :
    run_receipt_pipeline env { r with status := s0 } = run_receipt_pipeline env r ∧
    ((run_receipt_pipeline env r).receipt.status = .pending_confirmation ∨
     (run_receipt_pipeline env r).receipt.status = .failed) := by
  constructor
  · rfl
  · rcases hex : env.extraction with e | pr
    · rw [run_extraction_error env r e hex]
      right
      rfl
    · cases pr with
      | mk items raw =>
        by_cases hi : items = []
        · subst hi
          rw [run_no_items env r raw hex]
          right
          rfl
        · by_cases hm : pipelineMatched env items = []
          · rw [run_no_matched env r items raw hex hi hm]
            right
            rfl
          · by_cases hv : pipelineValidated env (pipelineMatched env items) = []
            · rw [run_no_validated env r items raw hex hi hm hv]
              right
              rfl
            · rw [run_success env r items raw hex hi hm hv]
              left
              rfl

/-- Claim C8 counterexample: a duplicate delivery on a receipt already in
`PendingConfirmation` is not a no-op — with an extraction that returns zero
items the receipt is driven to `Failed` and the run raises. -/
theorem claim_C8_counterexample :
    (run_receipt_pipeline
      ⟨.ok ([], "RAW"), fun _ => none, fun _ _ _ => .error (), fun _ => none⟩
      ⟨"R1", "img", .pending_confirmation, none, none, none⟩).receipt.status = .failed ∧
    ReceiptStatus.failed ≠ ReceiptStatus.pending_confirmation ∧
    (run_receipt_pipeline
      ⟨.ok ([], "RAW"), fun _ => none, fun _ _ _ => .error (), fun _ => none⟩
      ⟨"R1", "img", .pending_confirmation, none, none, none⟩).outcome =
      .error "No items extracted from receipt\n\nข้อมูลที่ OCR ได้: RAW" :=
  ⟨rfl, by decide, rfl⟩

/-- Claim C9 (amended): the progress sink receives at most the three
events 33, 66, 100 in that order, but each is delivered immediately before
its stage, not after it: 33 before extraction, 66 after extraction and
before matching, 100 after matching and before validation; a run that
fails earlier only receives the reports already emitted. -/
theorem claim_C9_amended (env : PipelineEnv) (r : Receipt) :
    (∀ e, env.extraction = .error e →
      (run_receipt_pipeline env r).events =
        [.report 33 "vision_extraction" extractionMsg]) ∧
    (∀ raw, env.extraction = .ok ([], raw) →
      (run_receipt_pipeline env r).events =
        [.report 33 "vision_extraction" extractionMsg, .extractionReturned]) ∧
    (∀ items raw, env.extraction = .ok (items, raw) → items ≠ [] →
      pipelineMatched env items = [] →
      (run_receipt_pipeline env r).events =
        [.report 33 "vision_extraction" extractionMsg, .extractionReturned,
         .report 66 "matching" matchingMsg, .matchingDone]) ∧
    (∀ items raw, env.extraction = .ok (items, raw) → items ≠ [] →
      pipelineMatched env items ≠ [] →
      (run_receipt_pipeline env r).events =
        [.report 33 "vision_extraction" extractionMsg, .extractionReturned,
         .report 66 "matching" matchingMsg, .matchingDone,
         .report 100 "validation" validationMsg, .validationDone]) := by
  refine ⟨fun e he => ?_, fun raw hok => ?_, fun items raw hok hi hm => ?_,
    fun items raw hok hi hm => ?_⟩
  · rw [run_extraction_error env r e he]
  · rw [run_no_items env r raw hok]
  · rw [run_no_matched env r items raw hok hi hm]
  · by_cases hv : pipelineValidated env (pipelineMatched env items) = []
    · rw [run_no_validated env r items raw hok hi hm hv]
    · rw [run_success env r items raw hok hi hm hv]

/-- Claim C9 witness: a concrete run that reaches validation delivers the
full six-event trace, with each report preceding its stage marker. -/
theorem claim_C9_witness :
    (run_receipt_pipeline
      ⟨.ok ([⟨"a", "1", "t"⟩], "RAW"),
       fun _ => some ⟨"P1", "a", "u", Rat.divInt 9 10⟩,
       fun m _ q => .ok ⟨m.product_id, m.product_name, 1, m.unit, 1, q⟩,
       fun _ => none⟩
      ⟨"R1", "img", .processing, none, none, none⟩).events =
      [.report 33 "vision_extraction" extractionMsg, .extractionReturned,
       .report 66 "matching" matchingMsg, .matchingDone,
       .report 100 "validation" validationMsg, .validationDone] :=
  (claim_C9_amended
    ⟨.ok ([⟨"a", "1", "t"⟩], "RAW"),
     fun _ => some ⟨"P1", "a", "u", Rat.divInt 9 10⟩,
     fun m _ q => .ok ⟨m.product_id, m.product_name, 1, m.unit, 1, q⟩,
     fun _ => none⟩
    ⟨"R1", "img", .processing, none, none, none⟩).2.2.2
    [⟨"a", "1", "t"⟩] "RAW" rfl (by decide) (by decide)

/-- Claim C9 counterexample: on a successful concrete run the claimed
delivery discipline (each report after its stage completes) is violated —
the 33% report precedes the extraction-completed instant. -/
theorem claim_C9_counterexample :
    (run_receipt_pipeline
      ⟨.ok ([⟨"a", "1", "t"⟩], "RAW"),
       fun _ => some ⟨"P1", "a", "u", Rat.divInt 9 10⟩,
       fun m _ q => .ok ⟨m.product_id, m.product_name, 1, m.unit, 1, q⟩,
       fun _ => none⟩
      ⟨"R1", "img", .processing, none, none, none⟩).receipt.status =
      .pending_confirmation ∧
    progressPerSpec (run_receipt_pipeline
      ⟨.ok ([⟨"a", "1", "t"⟩], "RAW"),
       fun _ => some ⟨"P1", "a", "u", Rat.divInt 9 10⟩,
       fun m _ q => .ok ⟨m.product_id, m.product_name, 1, m.unit, 1, q⟩,
       fun _ => none⟩
      ⟨"R1", "img", .processing, none, none, none⟩).events = false := by
  decide

/-- Claim C10: every item the confirmation endpoint applies to inventory
and records in the transaction carries confidence exactly 1.0 — the
request schema has no confidence field and `confirm_receipt` constructs
each `ValidatedItem` with `confidence=1.0` regardless of what the pipeline
computed. -/
theorem claim_C10 (items : List ConfirmReceiptItem) :
    ∀ v ∈ confirmValidatedItems items, v.confidence = 1 := by
  intro v hv
  obtain ⟨it, -, hmk⟩ := List.mem_map.mp hv
  rw [← hmk]

/-- Claim C10 witness: the concrete confirmed item is assigned
confidence 1. -/
theorem claim_C10_witness :
    (ValidatedItem.mk "P" "n" 2 "u" 1 "t").confidence = 1 :=
  claim_C10 [⟨"P", "n", 2, "u", "t"⟩] ⟨"P", "n", 2, "u", 1, "t"⟩ (by decide)

/-- Claim C2 witness: a concrete successful run (one item extracted,
matched and validated) ends in `PendingConfirmation`. -/
theorem claim_C2_witness :
    (run_receipt_pipeline
      ⟨.ok ([⟨"a", "1", "t"⟩], "RAW"),
       fun _ => some ⟨"P1", "a", "u", Rat.divInt 9 10⟩,
       fun m _ q => .ok ⟨m.product_id, m.product_name, 1, m.unit, 1, q⟩,
       fun _ => none⟩
      ⟨"R1", "img", .processing, none, none, none⟩).receipt.status =
      .pending_confirmation :=
  (claim_C2
    ⟨.ok ([⟨"a", "1", "t"⟩], "RAW"),
     fun _ => some ⟨"P1", "a", "u", Rat.divInt 9 10⟩,
     fun m _ q => .ok ⟨m.product_id, m.product_name, 1, m.unit, 1, q⟩,
     fun _ => none⟩
    ⟨"R1", "img", .processing, none, none, none⟩).1.mpr
    ⟨[⟨"a", "1", "t"⟩], "RAW", rfl, by decide⟩

/-- Claim C1 witness: a concrete one-product catalog confirmed against an
unknown product id `P2` aborts with a 400 error and an unchanged session. -/
theorem claim_C1_witness :
    ∃ e, confirm_receipt
        ⟨⟨[⟨"P1", "n", "u", 5, 10⟩], [⟨"R1", "img", .pending_confirmation, none, none, none⟩],
           [], [], 0⟩,
         ⟨[⟨"P1", "n", "u", 5, 10⟩], [⟨"R1", "img", .pending_confirmation, none, none, none⟩],
           [], [], 0⟩⟩
        "R1" [⟨"P2", "m", 3, "u", "t"⟩] =
      (⟨⟨[⟨"P1", "n", "u", 5, 10⟩], [⟨"R1", "img", .pending_confirmation, none, none, none⟩],
           [], [], 0⟩,
         ⟨[⟨"P1", "n", "u", 5, 10⟩], [⟨"R1", "img", .pending_confirmation, none, none, none⟩],
           [], [], 0⟩⟩, .error (.badRequest e)) :=
  (claim_C1
    ⟨⟨[⟨"P1", "n", "u", 5, 10⟩], [⟨"R1", "img", .pending_confirmation, none, none, none⟩],
       [], [], 0⟩,
     ⟨[⟨"P1", "n", "u", 5, 10⟩], [⟨"R1", "img", .pending_confirmation, none, none, none⟩],
       [], [], 0⟩⟩
    "R1" [⟨"P2", "m", 3, "u", "t"⟩]
    ⟨"R1", "img", .pending_confirmation, none, none, none⟩
    rfl (by decide) rfl
    ⟨⟨"P2", "m", 3, "u", "t"⟩, by decide, by decide⟩).1

end AutoInventory
